import Mathlib

/- Verification development for the Perdiction repository.

   The definitions below are shallow embeddings of the TypeScript source:
   - the loosely-structured text-to-JSON normalizer (parseJsonResponse and
     its helpers) from the Gemini service module,
   - the expiring localStorage cache (getCachedData / setCachedData /
     cleanupCache) with its configuration constants,
   - the linear-backoff retry loop (withRetry),
   - the favorites provider state transitions (addPrediction,
     removePrediction, addAccumulator, removeAccumulator) and the
     Supabase error classifier,
   - the score-fetching merge logic (fetchScoresForPredictions).

   JavaScript strings are modelled through their character lists; the
   built-in browser facilities (JSON.parse, Date parsing, localStorage)
   are modelled by executable Lean functions or explicit parameters, as
   noted at each definition. -/

/- ### Generic string helpers (models of the JavaScript string built-ins) -/
/-- Whitespace characters recognised by the JavaScript `\s` class and
`String.prototype.trim` (ASCII portion, which is all the repository uses). -/
def isJsWs (c : Char) : Bool :=
  c = ' ' || c = '\t' || c = '\n' || c = '\r' || c = '\x0b' || c = '\x0c'

/-- Trim on character lists: drop leading and trailing whitespace. -/
def trimChars (cs : List Char) : List Char :=
  ((cs.dropWhile isJsWs).reverse.dropWhile isJsWs).reverse

/-- Model of `String.prototype.trim`. -/
def jsTrim (s : String) : String := ⟨trimChars s.data⟩

/-- Model of `String.prototype.toLowerCase` (ASCII, which is all the
repository's keyword matching needs). -/
def jsToLower (s : String) : String := ⟨s.data.map Char.toLower⟩

/-- Does the haystack contain the needle as a contiguous sublist?
Model of `String.prototype.includes` via character lists. -/
def listHasSub (sub : List Char) : List Char → Bool
  | [] => sub.isEmpty
  | c :: cs => sub.isPrefixOf (c :: cs) || listHasSub sub cs

/-- Model of `String.prototype.includes` (empty needle included everywhere,
as in JavaScript). -/
def jsIncludes (hay sub : String) : Bool :=
  sub.data.isEmpty || listHasSub sub.data hay.data

/-- Model of `String.prototype.startsWith`. -/
def jsStarts (s pre : String) : Bool := pre.data.isPrefixOf s.data

/-- Model of `String.prototype.endsWith`. -/
def jsEnds (s suf : String) : Bool := suf.data.reverse.isPrefixOf s.data.reverse

/- ### Stable sort by an integer key

   `Array.prototype.sort` with a comparator `(a, b) => f(a) - f(b)` is a
   stable ascending sort by `f`.  A stable sort's output is uniquely
   determined by the comparator, so the left-to-right insertion sort below
   (which keeps earlier elements in front of later equal-keyed ones) has
   exactly the output of the JavaScript call. -/
/-- Insert `x` after every already-placed element whose key is `≤ key x`. -/
def insBy (key : α → Int) (x : α) : List α → List α
  | [] => [x]
  | y :: ys => if key y ≤ key x then y :: insBy key x ys else x :: y :: ys

/-- Stable ascending sort by an integer key, processing elements left to
right (model of `Array.prototype.sort` with comparator `f(a) - f(b)`). -/
def sortByKey (key : α → Int) (l : List α) : List α :=
  l.foldl (fun acc x => insBy key x acc) []

/- ### JSON values and a model of the browser built-in `JSON.parse`

   `JSON.parse` is a host built-in, not repository code; it is modelled here
   by an executable strict JSON parser.  Numbers keep their source lexeme
   (the repository never computes with parsed numbers, and floating-point
   value semantics are outside the embedding). -/
inductive JsValue where
  | null
  | bool (b : Bool)
  | num (lexeme : String)
  | str (s : String)
  | arr (items : List JsValue)
  | obj (fields : List (String × JsValue))

/-- JSON insignificant whitespace (per the JSON grammar used by `JSON.parse`). -/
def jsonWs (c : Char) : Bool :=
  c = ' ' || c = '\t' || c = '\n' || c = '\r'

/-- Match a literal token, returning the remaining input. -/
def parseLit (lit cs : List Char) : Option (List Char) :=
  if lit.isPrefixOf cs then some (cs.drop lit.length) else none

/-- Is the character a hexadecimal digit? -/
def isHexDig (c : Char) : Bool :=
  c.isDigit || ('a' ≤ c && c ≤ 'f') || ('A' ≤ c && c ≤ 'F')

/-- Hexadecimal digit value. -/
def hexVal (c : Char) : Nat :=
  if c.isDigit then c.toNat - 48
  else if 'a' ≤ c && c ≤ 'f' then c.toNat - 87
  else if 'A' ≤ c && c ≤ 'F' then c.toNat - 55
  else 0

/-- Parse the body of a JSON string (after the opening quote), handling the
escape sequences `JSON.parse` accepts and rejecting raw control characters. -/
def parseStrBody : Nat → List Char → List Char → Option (String × List Char)
  | 0, _, _ => none
  | _ + 1, [], _ => none
  | fuel + 1, c :: rest, acc =>
    if c = '"' then some (⟨acc.reverse⟩, rest)
    else if c = '\\' then
      match rest with
      | [] => none
      | e :: rest2 =>
        if e = '"' then parseStrBody fuel rest2 ('"' :: acc)
        else if e = '\\' then parseStrBody fuel rest2 ('\\' :: acc)
        else if e = '/' then parseStrBody fuel rest2 ('/' :: acc)
        else if e = 'b' then parseStrBody fuel rest2 ('\x08' :: acc)
        else if e = 'f' then parseStrBody fuel rest2 ('\x0c' :: acc)
        else if e = 'n' then parseStrBody fuel rest2 ('\n' :: acc)
        else if e = 'r' then parseStrBody fuel rest2 ('\r' :: acc)
        else if e = 't' then parseStrBody fuel rest2 ('\t' :: acc)
        else if e = 'u' then
          match rest2 with
          | a :: b :: c2 :: d :: rest3 =>
            if isHexDig a && isHexDig b && isHexDig c2 && isHexDig d then
              parseStrBody fuel rest3
                (Char.ofNat (hexVal a * 4096 + hexVal b * 256 + hexVal c2 * 16 + hexVal d) :: acc)
            else none
          | _ => none
        else none
    else if c.toNat < 32 then none
    else parseStrBody fuel rest (c :: acc)

/-- Parse a JSON number, returning its lexeme (strict JSON grammar:
optional minus, integer part without leading zeros, optional fraction,
optional exponent). -/
def parseNum (cs : List Char) : Option (String × List Char) :=
  let (sign, cs1) :=
    match cs with
    | '-' :: t => (['-'], t)
    | _ => (([] : List Char), cs)
  match cs1 with
  | [] => none
  | c :: _ =>
    if !c.isDigit then none
    else
      let (ipart, r1) :=
        if c = '0' then (['0'], cs1.drop 1)
        else (cs1.takeWhile Char.isDigit, cs1.dropWhile Char.isDigit)
      let step2 : Option (List Char × List Char) :=
        match r1 with
        | '.' :: t =>
          let fd := t.takeWhile Char.isDigit
          if fd.isEmpty then none else some ('.' :: fd, t.dropWhile Char.isDigit)
        | _ => some ([], r1)
      match step2 with
      | none => none
      | some (fpart, r2) =>
        let step3 : Option (List Char × List Char) :=
          match r2 with
          | e :: t =>
            if e = 'e' || e = 'E' then
              let (sgn, t2) :=
                match t with
                | '+' :: u => (['+'], u)
                | '-' :: u => (['-'], u)
                | _ => (([] : List Char), t)
              let ed := t2.takeWhile Char.isDigit
              if ed.isEmpty then none
              else some (e :: (sgn ++ ed), t2.dropWhile Char.isDigit)
            else some ([], r2)
          | [] => some ([], r2)
        match step3 with
        | none => none
        | some (epart, r3) => some (⟨sign ++ ipart ++ fpart ++ epart⟩, r3)

mutual

/-- Parse one JSON value (leading whitespace allowed), fuel-bounded. -/
def parseVal : Nat → List Char → Option (JsValue × List Char)
  | 0, _ => none
  | fuel + 1, cs0 =>
    let cs := cs0.dropWhile jsonWs
    match cs with
    | [] => none
    | '{' :: rest =>
      match rest.dropWhile jsonWs with
      | '}' :: r2 => some (.obj [], r2)
      | _ => parseMembers fuel rest []
    | '[' :: rest =>
      match rest.dropWhile jsonWs with
      | ']' :: r2 => some (.arr [], r2)
      | _ => parseItems fuel rest []
    | '"' :: rest => (parseStrBody (rest.length + 1) rest []).map fun p => (.str p.1, p.2)
    | 't' :: _ => (parseLit "true".data cs).map fun r => (.bool true, r)
    | 'f' :: _ => (parseLit "false".data cs).map fun r => (.bool false, r)
    | 'n' :: _ => (parseLit "null".data cs).map fun r => (.null, r)
    | _ => (parseNum cs).map fun p => (.num p.1, p.2)

/-- Parse the items of a non-empty JSON array (after the opening bracket). -/
def parseItems : Nat → List Char → List JsValue → Option (JsValue × List Char)
  | 0, _, _ => none
  | fuel + 1, cs, acc =>
    match parseVal fuel cs with
    | none => none
    | some (v, rest) =>
      match rest.dropWhile jsonWs with
      | ',' :: r2 => parseItems fuel r2 (v :: acc)
      | ']' :: r2 => some (.arr (v :: acc).reverse, r2)
      | _ => none

/-- Parse the members of a non-empty JSON object (after the opening brace). -/
def parseMembers : Nat → List Char → List (String × JsValue) →
    Option (JsValue × List Char)
  | 0, _, _ => none
  | fuel + 1, cs, acc =>
    match cs.dropWhile jsonWs with
    | '"' :: rest =>
      match parseStrBody (rest.length + 1) rest [] with
      | none => none
      | some (k, r1) =>
        match r1.dropWhile jsonWs with
        | ':' :: r3 =>
          match parseVal fuel r3 with
          | none => none
          | some (v, r4) =>
            match r4.dropWhile jsonWs with
            | ',' :: r6 => parseMembers fuel r6 ((k, v) :: acc)
            | '}' :: r6 => some (.obj ((k, v) :: acc).reverse, r6)
            | _ => none
        | _ => none
    | _ => none

end

/-- Model of `JSON.parse`: parse one value and require only whitespace after
it; `none` models a thrown `SyntaxError`. -/
def jsonParse (s : String) : Option JsValue :=
  match parseVal (2 * s.data.length + 2) s.data with
  | some (v, rest) => if (rest.dropWhile jsonWs).isEmpty then some v else none
  | none => none

/- ### The text-to-JSON normalizer (geminiService parseJsonResponse) -/
/-- The `\w` word-character class of JavaScript regular expressions. -/
def isWordChar (c : Char) : Bool := c.isAlpha || c.isDigit || c = '_'

/-- First index at which `sub` occurs in the list, if any. -/
def findSubIdx (sub : List Char) : List Char → Option Nat
  | [] => if sub.isEmpty then some 0 else none
  | c :: cs =>
    if sub.isPrefixOf (c :: cs) then some 0
    else (findSubIdx sub cs).map (· + 1)

/-- Capture group of the fence regular expression
`/(three backticks)(?:json)?\s*([\s\S]*?)\s*(three backticks)/` applied to the
text, already trimmed (the greedy `\s*` borders make the capture trimmed);
`none` when the regular expression has no match. -/
def fenceCapture (cs : List Char) : Option (List Char) :=
  match findSubIdx "```".data cs with
  | none => none
  | some i =>
    let afterOpen := cs.drop (i + 3)
    let body := if "json".data.isPrefixOf afterOpen then afterOpen.drop 4 else afterOpen
    match findSubIdx "```".data body with
    | none => none
    | some j => some (trimChars (body.take j))

/-- Fallback of `extractJsonFromResponse`: slice from the first `\x7b` or `[`
(whichever comes first), or return the text unchanged when neither occurs. -/
def fallbackStart (text : String) : String :=
  match text.data.findIdx? (· = '{'), text.data.findIdx? (· = '[') with
  | some i, some j => ⟨text.data.drop (min i j)⟩
  | some i, none => ⟨text.data.drop i⟩
  | none, some j => ⟨text.data.drop j⟩
  | none, none => text

/-- Embedding of `extractJsonFromResponse`: take the fenced block when the
fence regular expression matches with a non-empty (hence truthy) capture,
otherwise fall back to slicing from the first brace or bracket. -/
def extractJsonFromResponse (text : String) : String :=
  match fenceCapture text.data with
  | some cap => if cap.isEmpty then fallbackStart text else ⟨cap⟩
  | none => fallbackStart text

/-- Embedding of `isValidJsonStart`. -/
def isValidJsonStart (text : String) : Bool :=
  let t := jsTrim text
  jsStarts t "\x7b" || jsStarts t "["

/-- The conversational-refusal keyword list of `hasConversationalContent`,
verbatim from the source. -/
def conversationalKeywords : List String :=
  ["i am sorry", "i cannot", "unable to find", "could not find",
   "no verifiable matches", "no football matches", "data is not available",
   "not possible to fulfill", "no odds were provided",
   "challenging", "absence of readily available", "not possible to fulfill the request",
   "due to the nature", "unable to provide", "not possible to provide", "as an ai",
   "appropriate response is `null`", "the response will be `null`",
   "based on the available information", "ai prediction:", "ai rationale:"]

/-- Test of the regular expression `/(backtick?)null(backtick?)\.?\s*$/`:
after trailing whitespace, an optional dot and an optional backtick, the
text ends in `null`. -/
def endsNullMark (lowerText : String) : Bool :=
  let r0 := lowerText.data.reverse.dropWhile isJsWs
  let r1 := match r0 with
    | '.' :: rest => rest
    | _ => r0
  let r2 := match r1 with
    | '`' :: rest => rest
    | _ => r1
  "null".data.reverse.isPrefixOf r2

/-- Embedding of `hasConversationalContent`. -/
def hasConversationalContent (lowerText : String) : Bool :=
  conversationalKeywords.any (fun k => jsIncludes lowerText k) || endsNullMark lowerText

/- Sanitization (sanitizeJsonString): each of the four regex replacements is
   modelled by an executable scan over the character list.  A step function
   recognises a match at the current position, returning the replacement
   output and the rest of the input after the consumed part. -/
/-- Generic global-replace driver: at each position try the step function;
on a match emit its output and continue after the consumed part, otherwise
keep the character.  Fuel is the list length plus one (every step consumes
at least one character). -/
def scanRepl (step : List Char → Option (List Char × List Char)) :
    Nat → List Char → List Char
  | 0, cs => cs
  | _ + 1, [] => []
  | fuel + 1, c :: cs =>
    match step (c :: cs) with
    | some (out, rest) => out ++ scanRepl step fuel rest
    | none => c :: scanRepl step fuel cs

/-- Match of `/tapped from search result \[\d+(,\s*\d+)*\]/` at the current
position: the rest after the closing bracket, or `none`. -/
def searchMarkTail : Nat → List Char → Option (List Char)
  | 0, _ => none
  | fuel + 1, cs =>
    match cs with
    | ']' :: rest => some rest
    | ',' :: rest =>
      let r2 := rest.dropWhile isJsWs
      let ds := r2.takeWhile Char.isDigit
      if ds.isEmpty then none else searchMarkTail fuel (r2.dropWhile Char.isDigit)
    | _ => none

/-- Step function for the first sanitization regex (search-result marks). -/
def searchMarkStep (cs : List Char) : Option (List Char × List Char) :=
  match parseLit "tapped from search result [".data cs with
  | none => none
  | some r1 =>
    let ds := r1.takeWhile Char.isDigit
    if ds.isEmpty then none
    else (searchMarkTail (r1.length + 1) (r1.dropWhile Char.isDigit)).map fun rest => ([], rest)

/-- Match of `/(?<=")\s+\w+\s*(?=[,\x7d\]])/` just after a double quote:
whitespace, a word, optional whitespace, with a delimiter lookahead. -/
def rogueStep (cs : List Char) : Option (List Char × List Char) :=
  let ws1 := cs.takeWhile isJsWs
  if ws1.isEmpty then none
  else
    let r1 := cs.dropWhile isJsWs
    let w := r1.takeWhile isWordChar
    if w.isEmpty then none
    else
      let r2 := r1.dropWhile isWordChar
      let r3 := r2.dropWhile isJsWs
      match r3 with
      | c :: _ => if c = ',' || c = '}' || c = ']' then some ([], r3) else none
      | [] => none

/-- Driver for the rogue-word regex, tracking the previous character of the
original text so the `(?<=")` lookbehind can be checked. -/
def rogueGo : Nat → Char → List Char → List Char
  | 0, _, cs => cs
  | _ + 1, _, [] => []
  | fuel + 1, prevc, c :: cs =>
    if prevc = '"' then
      match rogueStep (c :: cs) with
      | some (_, rest) => rogueGo fuel 'x' rest
      | none => c :: rogueGo fuel c cs
    else c :: rogueGo fuel c cs

/-- Step function for `/(\d\d:\d\d:\d\d):\d\d(Z)/` replaced by `$1$2`:
a malformed four-component time fragment loses its last component. -/
def dateFixStep (cs : List Char) : Option (List Char × List Char) :=
  match cs with
  | a1 :: a2 :: ':' :: b1 :: b2 :: ':' :: c1 :: c2 :: ':' :: d1 :: d2 :: 'Z' :: rest =>
    if [a1, a2, b1, b2, c1, c2, d1, d2].all Char.isDigit then
      some ([a1, a2, ':', b1, b2, ':', c1, c2, 'Z'], rest)
    else none
  | _ => none

/-- Step function for `/(Z")\s*\w+\s*(\w+)(?=:)/` replaced by
`$1\x7d, \x7b"$2"`: two word runs after `Z"` (or one run split before its
last character, as the backtracking greedy `\w+` does) followed by a colon
lookahead. -/
def mergedObjStep (cs : List Char) : Option (List Char × List Char) :=
  match cs with
  | 'Z' :: '"' :: rest =>
    let r1 := rest.dropWhile isJsWs
    let w1 := r1.takeWhile isWordChar
    if w1.isEmpty then none
    else
      let r2 := r1.dropWhile isWordChar
      let ws2 := r2.takeWhile isJsWs
      if ws2.isEmpty then
        match r2 with
        | ':' :: _ =>
          if 2 ≤ w1.length then
            some (['Z', '"', '}', ',', ' ', '{', '"'] ++ [w1.getLastD 'x'] ++ ['"'], r2)
          else none
        | _ => none
      else
        let r3 := r2.dropWhile isJsWs
        let w2 := r3.takeWhile isWordChar
        if w2.isEmpty then none
        else
          match r3.dropWhile isWordChar with
          | ':' :: rest4 =>
            some (['Z', '"', '}', ',', ' ', '{', '"'] ++ w2 ++ ['"'], ':' :: rest4)
          | _ => none
  | _ => none

/-- Embedding of `sanitizeJsonString`: the four global regex replacements
applied in source order. -/
def sanitizeJsonString (text : String) : String :=
  let t1 := scanRepl searchMarkStep (text.data.length + 1) text.data
  let t2 := rogueGo (t1.length + 1) 'x' t1
  let t3 := scanRepl dateFixStep (t2.length + 1) t2
  let t4 := scanRepl mergedObjStep (t3.length + 1) t3
  ⟨t4⟩

/-- The possible JavaScript arguments of `parseJsonResponse` (typed `any` in
the source): `null`, `undefined`, an already-parsed object, a string, or a
value of any other primitive type. -/
inductive JsInput where
  | jsNull
  | jsUndefined
  | jsObject (v : JsValue)
  | jsString (s : String)
  | jsOther

/-- Embedding of `parseJsonResponse`.  The JavaScript return type `T | null`
is modelled by `JsValue`, with `JsValue.null` standing for every `return
null` (in JavaScript the parsed value `null` and the sentinel `null` are the
same value).  The `try/catch` around `JSON.parse` is modelled by matching on
`jsonParse`: a parse failure (a thrown `SyntaxError`) lands in the `none`
branch and yields `null`. -/
def parseJsonResponse (x : JsInput) : JsValue :=
  match x with
  | .jsNull => .null
  | .jsUndefined => .null
  | .jsObject v => v
  | .jsOther => .null
  | .jsString s =>
    let textToParse := jsTrim s
    let lowerCaseText := jsToLower textToParse
    if lowerCaseText = "null" then .null
    else if !isValidJsonStart textToParse && hasConversationalContent lowerCaseText then .null
    else
      let t1 := extractJsonFromResponse textToParse
      let t2 := sanitizeJsonString t1
      if jsToLower (jsTrim t2) = "null" then .null
      else
        match jsonParse t2 with
        | some v => v
        | none => .null

/- ### The expiring localStorage cache (geminiService caching utilities)

   `localStorage` is modelled as an association list from full key strings to
   typed cache entries; a well-formed store (every stored item parses back
   into a `CacheEntry`) is assumed, so the corrupted-entry recovery branches
   are vacuous.  `Date.now()` is an explicit `now` argument in milliseconds. -/
/-- Embedding of the `CacheEntry` interface. -/
structure CacheEntry (T : Type) where
  timestamp : Nat
  data : T
  size : Option Nat
  accessCount : Nat
  lastAccessed : Nat

/-- `CACHE_CONFIG.DEFAULT_DURATION_MS`: the fixed 15-minute TTL. -/
def CACHE_DEFAULT_DURATION_MS : Nat := 15 * 60 * 1000

/-- `CACHE_CONFIG.MAX_CACHE_SIZE`. -/
def CACHE_MAX_CACHE_SIZE : Nat := 50

/-- The cleanup trigger count `MAX_CACHE_SIZE * CLEANUP_THRESHOLD`
(`50 * 0.8` evaluates to exactly `40` in 64-bit floating point). -/
def CACHE_CLEANUP_COUNT : Nat := 40

/-- The localStorage model: full key (including the `cache_` prefix) paired
with the stored entry. -/
abbrev CacheStore (T : Type) : Type := List (String × CacheEntry T)

/-- Model of `localStorage.getItem` on the typed store. -/
def lookupStore (store : CacheStore T) (k : String) : Option (CacheEntry T) :=
  List.lookup k store

/-- Model of `localStorage.removeItem`. -/
def removeStore (store : CacheStore T) (k : String) : CacheStore T :=
  store.filter (fun p => p.1 ≠ k)

/-- Model of `localStorage.setItem`: overwrite in place, or append. -/
def setStore : CacheStore T → String → CacheEntry T → CacheStore T
  | [], k, e => [(k, e)]
  | (k', e') :: rest, k, e =>
    if k' = k then (k, e) :: rest else (k', e') :: setStore rest k e

/-- The recency-plus-frequency score `lastAccessed + accessCount * 1000`
used by the eviction sort. -/
def entryScore (e : CacheEntry T) : Int :=
  (e.lastAccessed : Int) + (e.accessCount : Int) * 1000

/-- The `cache_`-prefixed portion of the store (the `keys.filter` of the
source). -/
def cacheEntriesOf (store : CacheStore T) : CacheStore T :=
  store.filter (fun p => jsStarts p.1 "cache_")

/-- The `entries.sort` of the eviction pass: cache entries ascending by
recency-plus-frequency score. -/
def evictionSorted (store : CacheStore T) : CacheStore T :=
  sortByKey (fun p => entryScore p.2) (cacheEntriesOf store)

/-- The keys removed by the eviction pass: the lowest-scoring
`Math.floor(n * 0.2) = n / 5` entries of the sorted cache listing. -/
def evictionVictims (store : CacheStore T) : List String :=
  ((evictionSorted store).take ((cacheEntriesOf store).length / 5)).map (fun p => p.1)

/-- Embedding of `cleanupCache`: below the 40-entry trigger do nothing;
otherwise sort the cache entries ascending by score and remove the lowest
fifth of them. -/
def cleanupCache (store : CacheStore T) : CacheStore T :=
  if (cacheEntriesOf store).length < CACHE_CLEANUP_COUNT then store
  else store.filter (fun p => !(evictionVictims store).contains p.1)

/-- Embedding of `getCachedData`, returning the result and the updated
store.  The `!key` guard models the empty string being falsy; the
`!entry.timestamp` validation treats a zero timestamp as invalid; an entry
older than the TTL is removed and reported as a miss; a hit bumps
`accessCount`, refreshes `lastAccessed` and writes the entry back. -/
def getCachedData (store : CacheStore T) (key : String) (now : Nat) :
    Option T × CacheStore T :=
  if key = "" then (none, store)
  else
    let fullKey := "cache_" ++ key
    match lookupStore store fullKey with
    | none => (none, store)
    | some e =>
      if e.timestamp = 0 then (none, removeStore store fullKey)
      else if CACHE_DEFAULT_DURATION_MS < now - e.timestamp then
        (none, removeStore store fullKey)
      else
        (some e.data,
         setStore store fullKey
           { e with accessCount := e.accessCount + 1, lastAccessed := now })

/-- Embedding of `setCachedData`: guard against a falsy key, run the
eviction pass, drop payloads over five megabytes, then store a fresh entry
(zero access count, current timestamp).  The serialized size is an explicit
argument (`Blob` byte counting is a host facility); the null-data guard is
vacuous since `data : T`, and the metadata bookkeeping touches no
`cache_` key so it is omitted. -/
def setCachedData (store : CacheStore T) (key : String) (data : T)
    (dataSize : Nat) (now : Nat) : CacheStore T :=
  if key = "" then store
  else
    let store1 := cleanupCache store
    if 5 * 1024 * 1024 < dataSize then store1
    else
      setStore store1 ("cache_" ++ key)
        { timestamp := now, data := data, size := some dataSize,
          accessCount := 0, lastAccessed := now }

/- ### The retry loop (geminiService withRetry) -/
/-- Observable outcome of a `withRetry` run: the settled promise (`error
none` models the unreachable generic `Max retries exceeded` rejection,
`error (some e)` a propagated operation error), the sleeps performed
between attempts, and the number of attempts made. -/
structure RetryOutcome (E A : Type) where
  result : Except (Option E) A
  waits : List Nat
  attempts : Nat

/-- Embedding of the `withRetry` loop from iteration `attempt`.  The
asynchronous operation is modelled as a function from the attempt number to
that attempt's settled result. -/
def withRetryGo (op : Nat → Except E A) (maxRetries delay attempt : Nat) :
    RetryOutcome E A :=
  if _h : maxRetries < attempt then ⟨.error none, [], 0⟩
  else
    match op attempt with
    | .ok a => ⟨.ok a, [], 1⟩
    | .error e =>
      if attempt = maxRetries then ⟨.error (some e), [], 1⟩
      else
        let r := withRetryGo op maxRetries delay (attempt + 1)
        ⟨r.result, delay * attempt :: r.waits, r.attempts + 1⟩
termination_by maxRetries + 1 - attempt
decreasing_by omega

/-- Embedding of `withRetry` (the loop starts at attempt 1). -/
def withRetry (op : Nat → Except E A) (maxRetries delay : Nat) : RetryOutcome E A :=
  withRetryGo op maxRetries delay 1

/- ### The favorites provider (FavoritesContext)

   React state is modelled as an explicit record; a Supabase write is
   modelled by its settled result (`none` for success, `some e` for an
   error object).  `new Date(s).getTime()` is a host facility, modelled by
   an arbitrary date-valuation parameter `dv : String → Int` supplied to
   every operation that sorts by date. -/
/-- Embedding of the `MatchPrediction` fields the provider logic reads
(numeric confidence/odds fields are carried as integers; no claim computes
with them). -/
structure MatchPrediction where
  id : String
  teamA : String
  teamB : String
  matchDate : String
  sport : String
  recommendedBet : String
  odds : Int
deriving DecidableEq

/-- Embedding of `FavoritePrediction` (a prediction plus the virtual stake). -/
structure FavoritePrediction extends MatchPrediction where
  virtualStake : Int
deriving DecidableEq

/-- Embedding of the `AccumulatorGame` fields the provider logic reads. -/
structure AccumulatorGame where
  teamA : String
  teamB : String
  prediction : String
  matchDate : String
deriving DecidableEq

/-- Embedding of the `AccumulatorTip` fields the provider logic reads. -/
structure AccumulatorTip where
  id : String
  name : String
  riskLevel : String
  games : List AccumulatorGame
deriving DecidableEq

/-- Embedding of `FavoriteAccumulator`. -/
structure FavoriteAccumulator extends AccumulatorTip where
  virtualStake : Int
deriving DecidableEq

/-- A Supabase error object; `message` is optional, matching the
`error.message || ''` guard in the source. -/
structure DbError where
  message : Option String

/-- The authentication failure banner text. -/
def authBannerMsg : String :=
  "Authentication with the database failed. Please ensure the Supabase API key in `config.ts` is correct."

/-- The generic database-error banner text for a given context. -/
def genericBannerMsg (context : String) : String :=
  "A database error occurred while " ++ context ++ ". Please check your connection and try again."

/-- Embedding of `handleSupabaseError`, returning the banner string the
provider stores in its error state. -/
def handleSupabaseError (e : DbError) (context : String) : String :=
  let errorMessage := jsToLower (e.message.getD "")
  if jsIncludes errorMessage "api key" then authBannerMsg
  else if jsIncludes errorMessage "relation" && jsIncludes errorMessage "does not exist" then
    "DATABASE_TABLES_MISSING"
  else genericBannerMsg context

/-- The provider state touched by the tracked-bet operations. -/
structure FavoritesState where
  trackedPredictions : List FavoritePrediction
  trackedAccumulators : List FavoriteAccumulator
  error : Option String
deriving DecidableEq

/-- The `reduce` computing the latest `matchDate` of an accumulator's games
(JavaScript string comparison, starting from `1970-01-01`). -/
def lastGameDateStr (games : List AccumulatorGame) : String :=
  games.foldl (fun mx g => if mx < g.matchDate then g.matchDate else mx) "1970-01-01"

/-- Embedding of `addPrediction`: clear the error, run the upsert; on error
set the banner, on success replace any same-id entry and re-sort by match
date. -/
def addPrediction (dv : String → Int) (st : FavoritesState)
    (prediction : MatchPrediction) (virtualStake : Int)
    (writeError : Option DbError) : FavoritesState :=
  let st0 := { st with error := none }
  match writeError with
  | some e => { st0 with error := some (handleSupabaseError e "tracking the prediction") }
  | none =>
    let newFavorite : FavoritePrediction := { prediction with virtualStake := virtualStake }
    let otherPredictions := st0.trackedPredictions.filter (fun p => p.id ≠ prediction.id)
    let sorted := sortByKey (fun f => dv f.matchDate) (otherPredictions ++ [newFavorite])
    { st0 with trackedPredictions := sorted }

/-- Embedding of `removePrediction`. -/
def removePrediction (st : FavoritesState) (predictionId : String)
    (writeError : Option DbError) : FavoritesState :=
  let st0 := { st with error := none }
  match writeError with
  | some e => { st0 with error := some (handleSupabaseError e "untracking the prediction") }
  | none =>
    { st0 with trackedPredictions :=
        st0.trackedPredictions.filter (fun p => p.id ≠ predictionId) }

/-- Embedding of `addAccumulator` (the optional strategy id only goes into
the database payload, not into local state). -/
def addAccumulator (dv : String → Int) (st : FavoritesState)
    (accumulator : AccumulatorTip) (virtualStake : Int)
    (writeError : Option DbError) : FavoritesState :=
  let st0 := { st with error := none }
  match writeError with
  | some e => { st0 with error := some (handleSupabaseError e "tracking the accumulator") }
  | none =>
    let newFavorite : FavoriteAccumulator := { accumulator with virtualStake := virtualStake }
    let otherAccumulators := st0.trackedAccumulators.filter (fun a => a.id ≠ accumulator.id)
    let sorted := sortByKey (fun a => dv (lastGameDateStr a.games)) (otherAccumulators ++ [newFavorite])
    { st0 with trackedAccumulators := sorted }

/-- Embedding of `removeAccumulator`. -/
def removeAccumulator (st : FavoritesState) (accumulatorId : String)
    (writeError : Option DbError) : FavoritesState :=
  let st0 := { st with error := none }
  match writeError with
  | some e => { st0 with error := some (handleSupabaseError e "untracking the accumulator") }
  | none =>
    { st0 with trackedAccumulators :=
        st0.trackedAccumulators.filter (fun a => a.id ≠ accumulatorId) }

/-- The predictions branch of `fetchData`: the rows loaded from the store
(prediction data merged with its stake) sorted by match date. -/
def fetchDataPredictions (dv : String → Int) (rows : List FavoritePrediction) :
    List FavoritePrediction :=
  sortByKey (fun f => dv f.matchDate) rows

/- ### Score fetching and merging (fetchScoresForPredictions) -/
/-- Embedding of the `PredictionResult` interface (`betOutcome` is the
`"Won"`/`"Lost"` string or null). -/
structure PredictionResult where
  finalScore : Option String
  betOutcome : Option String
deriving DecidableEq

/-- One element of the model's parsed score response. -/
structure ScoreItem where
  id : String
  finalScore : Option String
  betOutcome : Option String
deriving DecidableEq

/-- A JavaScript record keyed by prediction id, modelled as an association
list whose first binding for a key is its value. -/
abbrev ScoresRec : Type := List (String × PredictionResult)

/-- The loops building the returned `relevantScores` record: for each
requested prediction whose id has a binding in `rec`, add that binding. -/
def buildRelevant (predictions : List MatchPrediction) (rec : ScoresRec) : ScoresRec :=
  predictions.foldl (fun acc p =>
    match List.lookup p.id rec with
    | some r => acc ++ [(p.id, r)]
    | none => acc) []

/-- The `newScores` record assembled from the model's parsed response
(later items overriding earlier ones, as repeated JavaScript assignments
do). -/
def respRecord (items : List ScoreItem) : ScoresRec :=
  items.foldl (fun acc it => (it.id, ⟨it.finalScore, it.betOutcome⟩) :: acc) []

/-- The loop filling `\x7b finalScore: null, betOutcome: null \x7d` for every
queried prediction the response did not cover. -/
def fillMissing (toFetch : List MatchPrediction) (acc0 : ScoresRec) : ScoresRec :=
  toFetch.foldl (fun acc p =>
    match List.lookup p.id acc with
    | some _ => acc
    | none => (p.id, (⟨none, none⟩ : PredictionResult)) :: acc) acc0

/-- Embedding of `fetchScoresForPredictions`, returning the record the
function returns together with the updated scores cache it writes.  The
already-cached record and the model's parsed response (`none` when the
response failed to parse) are explicit arguments. -/
def fetchScoresForPredictions (predictions : List MatchPrediction)
    (cachedScores : ScoresRec) (parsedData : Option (List ScoreItem)) :
    ScoresRec × ScoresRec :=
  let predictionsToFetch := predictions.filter fun p => (List.lookup p.id cachedScores).isNone
  if predictionsToFetch.isEmpty then
    (buildRelevant predictions cachedScores, cachedScores)
  else
    let fromResponse : ScoresRec :=
      match parsedData with
      | some items => respRecord items
      | none => []
    let newScores := fillMissing predictionsToFetch fromResponse
    let updatedCache := newScores ++ cachedScores
    (buildRelevant predictions updatedCache, updatedCache)

/-- The invariant of C9: the tracked predictions list has at most one entry
per prediction id and is in non-decreasing match-date order (dates valued
through the ambient date parser `dv`). -/
def PredsInvariant (dv : String → Int) (l : List FavoritePrediction) : Prop :=
  (l.map (fun f => f.id)).Nodup ∧
  l.Pairwise (fun a b => dv a.matchDate ≤ dv b.matchDate)

/- ### Theorems -/

theorem insBy_perm (key : α → Int) (x : α) (l : List α) :
    (insBy key x l).Perm (x :: l) := by
  induction l with
  | nil => simp [insBy]
  | cons y ys ih =>
    by_cases h : key y ≤ key x
    · simp only [insBy, if_pos h]
      exact ((ih.cons y).trans (List.Perm.swap x y ys))
    · simp [insBy, if_neg h]

theorem sortByKey_foldl_perm (key : α → Int) :
    ∀ (l acc : List α), (l.foldl (fun acc x => insBy key x acc) acc).Perm (acc ++ l) := by
  intro l
  induction l with
  | nil => intro acc; simp
  | cons x xs ih =>
    intro acc
    have h1 := ih (insBy key x acc)
    have h2 : (insBy key x acc ++ xs).Perm ((x :: acc) ++ xs) :=
      (insBy_perm key x acc).append_right xs
    have h3 : ((x :: acc) ++ xs).Perm (acc ++ x :: xs) := List.perm_middle.symm
    exact (h1.trans h2).trans h3

theorem sortByKey_perm (key : α → Int) (l : List α) :
    (sortByKey key l).Perm l := by
  simpa using sortByKey_foldl_perm key l []

theorem insBy_pairwise (key : α → Int) (x : α) (l : List α)
    (h : l.Pairwise (fun a b => key a ≤ key b)) :
    (insBy key x l).Pairwise (fun a b => key a ≤ key b) := by
  induction l with
  | nil => simp [insBy]
  | cons y ys ih =>
    rcases List.pairwise_cons.mp h with ⟨hy, hys⟩
    by_cases hxy : key y ≤ key x
    · simp only [insBy, if_pos hxy]
      refine List.pairwise_cons.mpr ⟨?_, ih hys⟩
      intro z hz
      have hz' : z ∈ x :: ys := (insBy_perm key x ys).mem_iff.mp hz
      rcases List.mem_cons.mp hz' with rfl | hzys
      · exact hxy
      · exact hy z hzys
    · simp only [insBy, if_neg hxy]
      have hxy' : key x ≤ key y := le_of_lt (lt_of_not_le hxy)
      refine List.pairwise_cons.mpr ⟨?_, h⟩
      intro z hz
      rcases List.mem_cons.mp hz with rfl | hzys
      · exact hxy'
      · exact le_trans hxy' (hy z hzys)

theorem sortByKey_foldl_pairwise (key : α → Int) :
    ∀ (l acc : List α), acc.Pairwise (fun a b => key a ≤ key b) →
      (l.foldl (fun acc x => insBy key x acc) acc).Pairwise (fun a b => key a ≤ key b) := by
  intro l
  induction l with
  | nil => intro acc h; simpa using h
  | cons x xs ih => intro acc h; exact ih (insBy key x acc) (insBy_pairwise key x acc h)

theorem sortByKey_pairwise (key : α → Int) (l : List α) :
    (sortByKey key l).Pairwise (fun a b => key a ≤ key b) :=
  sortByKey_foldl_pairwise key l [] (by simp)

/- ### Claim theorems -/
/-- C2 counterexample: the claim says every input string containing a
conversational-refusal phrase yields null, but a string that is valid JSON
containing the phrase `i cannot` inside a field is parsed and returned, not
nulled: the refusal check only runs when the trimmed text does not start
with a brace or bracket. -/
theorem parseJsonResponse_refusal_counterexample :
    ("i cannot" ∈ conversationalKeywords ∧
      jsIncludes (jsToLower (jsTrim "\x7b\"a\":\"i cannot\"\x7d")) "i cannot" = true) ∧
    parseJsonResponse (.jsString "\x7b\"a\":\"i cannot\"\x7d") ≠ .null := by
  refine ⟨⟨by decide, rfl⟩, ?_⟩
  intro h
  have hv : parseJsonResponse (.jsString "\x7b\"a\":\"i cannot\"\x7d") =
      .obj [("a", .str "i cannot")] := rfl
  exact JsValue.noConfusion (hv.symm.trans h)

/-- C2 (amended): parseJsonResponse returns null for every input string
that is the literal `null` up to surrounding whitespace and letter case,
and for every input string that, after trimming, does not start with a
brace or bracket and whose lower-cased text contains conversational
content (a refusal keyword or a trailing `null` marker). -/
theorem parseJsonResponse_null_and_refusal :
    (∀ s : String, jsToLower (jsTrim s) = "null" →
        parseJsonResponse (.jsString s) = .null) ∧
    (∀ s : String, isValidJsonStart (jsTrim s) = false →
        hasConversationalContent (jsToLower (jsTrim s)) = true →
        parseJsonResponse (.jsString s) = .null) := by
  constructor
  · intro s h
    simp [parseJsonResponse, h]
  · intro s h1 h2
    by_cases hn : jsToLower (jsTrim s) = "null"
    · simp [parseJsonResponse, hn]
    · simp [parseJsonResponse, hn, h1, h2]

/-- Witness for the amended C2 theorem at concrete inputs. -/
theorem parseJsonResponse_null_and_refusal_witness :
    parseJsonResponse (.jsString "  NULL ") = .null ∧
    parseJsonResponse (.jsString "I am sorry, I cannot find that.") = .null :=
  ⟨parseJsonResponse_null_and_refusal.1 "  NULL " (by decide),
   parseJsonResponse_null_and_refusal.2 "I am sorry, I cannot find that." (by decide) (by decide)⟩

/-- C3: parseJsonResponse is total over every kind of JavaScript argument
(null, undefined, object, non-string primitive, string) and the
JSON-parse failure branch is caught and yields null: whenever the parse of
the extracted and sanitized text fails (a thrown `SyntaxError`, modelled
by `jsonParse = none`), the result is null rather than a propagated
exception. -/
theorem parseJsonResponse_total_and_safe :
    parseJsonResponse .jsNull = .null ∧
    parseJsonResponse .jsUndefined = .null ∧
    (∀ v, parseJsonResponse (.jsObject v) = v) ∧
    parseJsonResponse .jsOther = .null ∧
    (∀ s : String,
        jsonParse (sanitizeJsonString (extractJsonFromResponse (jsTrim s))) = none →
        parseJsonResponse (.jsString s) = .null) := by
  refine ⟨rfl, rfl, fun v => rfl, rfl, ?_⟩
  intro s h
  by_cases h1 : jsToLower (jsTrim s) = "null"
  · simp [parseJsonResponse, h1]
  · by_cases h2 : (!isValidJsonStart (jsTrim s) &&
        hasConversationalContent (jsToLower (jsTrim s))) = true
    · simp [parseJsonResponse, h1, h2]
    · by_cases h3 :
        jsToLower (jsTrim (sanitizeJsonString (extractJsonFromResponse (jsTrim s)))) = "null"
      · simp [parseJsonResponse, h1, h2, h3]
      · simp [parseJsonResponse, h1, h2, h3, h]

/-- Witness for the C3 theorem: a string whose sanitized extraction fails
to parse comes back as null. -/
theorem parseJsonResponse_total_and_safe_witness :
    parseJsonResponse (.jsString "the quick brown fox") = .null :=
  parseJsonResponse_total_and_safe.2.2.2.2 "the quick brown fox" rfl

/-- C4 counterexample: the claim says every well-formed JSON document
wrapped in a Markdown fence parses to the document's own parse, but a
well-formed fenced document containing the phrase `i am sorry` in a string
field is short-circuited to null by the conversational-content check
(which sees the whole fenced text, whose trim starts with a backtick). -/
theorem parseJsonResponse_fenced_counterexample :
    jsonParse "\x7b\"msg\":\"i am sorry\"\x7d" =
      some (.obj [("msg", .str "i am sorry")]) ∧
    parseJsonResponse (.jsString "```json\n\x7b\"msg\":\"i am sorry\"\x7d\n```") =
      .null := ⟨rfl, rfl⟩

/-- C4 (amended): for a well-formed JSON document arriving in a Markdown
code fence, parseJsonResponse returns the document's own parse provided
the conversational short-circuit does not fire on the fenced text, fence
extraction recovers the document, the sanitization regexes leave the
document unchanged, and the document is not the bare literal `null`. -/
theorem parseJsonResponse_fenced_roundtrip (s d : String) (v : JsValue)
    (hnul : jsToLower (jsTrim s) ≠ "null")
    (hconv : (!isValidJsonStart (jsTrim s) &&
        hasConversationalContent (jsToLower (jsTrim s))) = false)
    (hext : extractJsonFromResponse (jsTrim s) = d)
    (hsan : sanitizeJsonString d = d)
    (hdnul : jsToLower (jsTrim d) ≠ "null")
    (hparse : jsonParse d = some v) :
    parseJsonResponse (.jsString s) = v := by
  simp [parseJsonResponse, hnul, hconv, hext, hsan, hdnul, hparse]

/-- Witness for the amended C4 theorem on a concrete fenced document. -/
theorem parseJsonResponse_fenced_roundtrip_witness :
    parseJsonResponse (.jsString "```json\n\x7b\"a\":1\x7d\n```") =
      .obj [("a", .num "1")] :=
  parseJsonResponse_fenced_roundtrip "```json\n\x7b\"a\":1\x7d\n```" "\x7b\"a\":1\x7d"
    (.obj [("a", .num "1")]) (by decide) rfl rfl rfl (by decide) rfl

/-- C7: when the backend write of any tracked add or remove operation
settles with an error, the resulting provider state has exactly the
previous tracked lists and only the error banner set; the lists change
only on a successful write. -/
theorem trackedWrites_abort_on_failure (dv : String → Int) (st : FavoritesState)
    (p : MatchPrediction) (acc : AccumulatorTip) (stake : Int)
    (pid aid : String) (e : DbError) :
    addPrediction dv st p stake (some e) =
      { st with error := some (handleSupabaseError e "tracking the prediction") } ∧
    removePrediction st pid (some e) =
      { st with error := some (handleSupabaseError e "untracking the prediction") } ∧
    addAccumulator dv st acc stake (some e) =
      { st with error := some (handleSupabaseError e "tracking the accumulator") } ∧
    removeAccumulator st aid (some e) =
      { st with error := some (handleSupabaseError e "untracking the accumulator") } :=
  ⟨rfl, rfl, rfl, rfl⟩

/-- C8: handleSupabaseError classifies an error solely by substrings of
its lower-cased message: `api key` gives the authentication banner; failing
that, `relation` together with `does not exist` gives the
DATABASE_TABLES_MISSING marker; everything else gives the generic banner
for the context. -/
theorem handleSupabaseError_classifies_by_substring (e : DbError) (context : String) :
    (jsIncludes (jsToLower (e.message.getD "")) "api key" = true →
        handleSupabaseError e context = authBannerMsg) ∧
    (jsIncludes (jsToLower (e.message.getD "")) "api key" = false →
        jsIncludes (jsToLower (e.message.getD "")) "relation" = true →
        jsIncludes (jsToLower (e.message.getD "")) "does not exist" = true →
        handleSupabaseError e context = "DATABASE_TABLES_MISSING") ∧
    (jsIncludes (jsToLower (e.message.getD "")) "api key" = false →
        (jsIncludes (jsToLower (e.message.getD "")) "relation" = false ∨
         jsIncludes (jsToLower (e.message.getD "")) "does not exist" = false) →
        handleSupabaseError e context = genericBannerMsg context) := by
  refine ⟨?_, ?_, ?_⟩
  · intro h1
    simp [handleSupabaseError, h1]
  · intro h1 h2 h3
    simp [handleSupabaseError, h1, h2, h3]
  · intro h1 h2
    rcases h2 with h2 | h2 <;> simp [handleSupabaseError, h1, h2]

/-- Witness for the C8 theorem on the three kinds of concrete messages. -/
theorem handleSupabaseError_classifies_by_substring_witness :
    handleSupabaseError ⟨some "Invalid API key supplied"⟩ "loading tracked predictions" =
      authBannerMsg ∧
    handleSupabaseError ⟨some "relation \"tracked_predictions\" does not exist"⟩
      "loading tracked predictions" = "DATABASE_TABLES_MISSING" ∧
    handleSupabaseError ⟨some "network timeout"⟩ "saving AI strategy" =
      genericBannerMsg "saving AI strategy" :=
  ⟨(handleSupabaseError_classifies_by_substring ⟨some "Invalid API key supplied"⟩
      "loading tracked predictions").1 (by decide),
   (handleSupabaseError_classifies_by_substring
      ⟨some "relation \"tracked_predictions\" does not exist"⟩
      "loading tracked predictions").2.1 (by decide) (by decide) (by decide),
   (handleSupabaseError_classifies_by_substring ⟨some "network timeout"⟩
      "saving AI strategy").2.2 (by decide) (Or.inl (by decide))⟩

theorem sorted_preds_invariant (dv : String → Int) (l : List FavoritePrediction)
    (h : (l.map (fun f => f.id)).Nodup) :
    PredsInvariant dv (sortByKey (fun f => dv f.matchDate) l) := by
  constructor
  · exact (((sortByKey_perm (fun f => dv f.matchDate) l).map (fun f => f.id)).symm).nodup h
  · exact sortByKey_pairwise (fun f => dv f.matchDate) l

theorem filtered_append_ids_nodup (l : List FavoritePrediction)
    (p : MatchPrediction) (stake : Int)
    (h : (l.map (fun f => f.id)).Nodup) :
    (((l.filter (fun q => q.id ≠ p.id)) ++
        [({ p with virtualStake := stake } : FavoritePrediction)]).map
      (fun f => f.id)).Nodup := by
  rw [List.map_append, List.nodup_append]
  refine ⟨((List.filter_sublist l).map (fun f => f.id)).nodup h, by simp, ?_⟩
  intro a ha hb
  rcases List.mem_map.mp ha with ⟨f, hf, rfl⟩
  have hfid : f.id ≠ p.id := by
    have := (List.mem_filter.mp hf).2
    simpa using this
  have hba : f.id = p.id := by simpa using hb
  exact hfid hba

/-- C9: every state-changing operation of the favorites provider keeps the
tracked-predictions invariant (unique ids, sorted by match date):
fetchData sorts rows with distinct ids into an invariant-satisfying list,
addPrediction removes any same-id entry before inserting and re-sorting,
and removePrediction only filters; failed writes leave the list unchanged. -/
theorem favorites_predictions_invariant (dv : String → Int) :
    (∀ rows : List FavoritePrediction, (rows.map (fun f => f.id)).Nodup →
        PredsInvariant dv (fetchDataPredictions dv rows)) ∧
    (∀ (st : FavoritesState) (p : MatchPrediction) (stake : Int)
        (werr : Option DbError), PredsInvariant dv st.trackedPredictions →
        PredsInvariant dv ((addPrediction dv st p stake werr).trackedPredictions)) ∧
    (∀ (st : FavoritesState) (pid : String) (werr : Option DbError),
        PredsInvariant dv st.trackedPredictions →
        PredsInvariant dv ((removePrediction st pid werr).trackedPredictions)) := by
  refine ⟨?_, ?_, ?_⟩
  · intro rows h
    exact sorted_preds_invariant dv rows h
  · intro st p stake werr hInv
    rcases werr with _ | e
    · exact sorted_preds_invariant dv _ (filtered_append_ids_nodup _ p stake hInv.1)
    · exact hInv
  · intro st pid werr hInv
    rcases werr with _ | e
    · constructor
      · exact ((List.filter_sublist st.trackedPredictions).map (fun f => f.id)).nodup hInv.1
      · exact hInv.2.sublist (List.filter_sublist st.trackedPredictions)
    · exact hInv

/-- Witness for the C9 theorem: adding a prediction to a one-element state
preserves the invariant. -/
theorem favorites_predictions_invariant_witness :
    PredsInvariant (fun s => (s.data.length : Int))
      ((addPrediction (fun s => (s.data.length : Int))
          ⟨[⟨⟨"p1", "TeamA", "TeamB", "2024-05-01", "Football", "Home Win", 2⟩, 10⟩], [], none⟩
          ⟨"p2", "TeamC", "TeamD", "2024-04-01", "Football", "Draw", 3⟩ 25 none).trackedPredictions) :=
  (favorites_predictions_invariant (fun s => (s.data.length : Int))).2.1
    ⟨[⟨⟨"p1", "TeamA", "TeamB", "2024-05-01", "Football", "Home Win", 2⟩, 10⟩], [], none⟩
    ⟨"p2", "TeamC", "TeamD", "2024-04-01", "Football", "Draw", 3⟩ 25 none
    ⟨by decide, by decide⟩

theorem lookup_removeStore (store : CacheStore T) (k : String) :
    lookupStore (removeStore store k) k = none := by
  induction store with
  | nil => rfl
  | cons p rest ih =>
    by_cases h : p.1 = k
    · simpa [removeStore, List.filter_cons, h] using ih
    · have hbeq : (k == p.1) = false := by
        simp [Ne.symm h]
      simpa [removeStore, lookupStore, List.filter_cons, h, List.lookup, hbeq] using ih

/-- C1 counterexample: at an age exactly equal to the 15-minute TTL the
entry's age is not strictly below the TTL, yet getCachedData still returns
the stored value (the code only evicts when the age strictly exceeds the
TTL). -/
theorem getCachedData_ttl_boundary_counterexample :
    (getCachedData [("cache_k", (⟨1, (7 : Nat), none, 0, 1⟩ : CacheEntry Nat))] "k"
        (1 + CACHE_DEFAULT_DURATION_MS)).1 = some 7 ∧
    ¬ ((1 + CACHE_DEFAULT_DURATION_MS) - 1 < CACHE_DEFAULT_DURATION_MS) :=
  ⟨rfl, by decide⟩

/-- C1 (amended): for a non-empty key, getCachedData returns the stored
value exactly when an entry is present with a nonzero timestamp and age at
most the 15-minute TTL (not strictly below it); otherwise — zero timestamp
or age strictly over the TTL — it removes the entry and returns a miss,
and a missing key returns a miss leaving the store untouched. -/
theorem getCachedData_ttl_spec (store : CacheStore T) (key : String) (now : Nat)
    (hkey : key ≠ "") :
    (∀ e : CacheEntry T, lookupStore store ("cache_" ++ key) = some e →
       (e.timestamp ≠ 0 → now - e.timestamp ≤ CACHE_DEFAULT_DURATION_MS →
          (getCachedData store key now).1 = some e.data) ∧
       ((e.timestamp = 0 ∨ CACHE_DEFAULT_DURATION_MS < now - e.timestamp) →
          (getCachedData store key now).1 = none ∧
          lookupStore (getCachedData store key now).2 ("cache_" ++ key) = none)) ∧
    (lookupStore store ("cache_" ++ key) = none →
       getCachedData store key now = (none, store)) := by
  constructor
  · intro e he
    constructor
    · intro hts hfresh
      simp [getCachedData, hkey, he, hts, Nat.not_lt.mpr hfresh]
    · intro hcase
      by_cases h0 : e.timestamp = 0
      · simp [getCachedData, hkey, he, h0, lookup_removeStore]
      · rcases hcase with hcase | hexp
        · exact absurd hcase h0
        · simp [getCachedData, hkey, he, h0, hexp, lookup_removeStore]
  · intro hnone
    simp [getCachedData, hkey, hnone]

/-- Witness for the amended C1 theorem: a fresh entry is returned. -/
theorem getCachedData_ttl_spec_witness :
    (getCachedData [("cache_k", (⟨5, (99 : Nat), none, 0, 5⟩ : CacheEntry Nat))] "k" 10).1 =
      some 99 :=
  ((getCachedData_ttl_spec [("cache_k", ⟨5, 99, none, 0, 5⟩)] "k" 10 (by decide)).1
      ⟨5, 99, none, 0, 5⟩ rfl).1 (by decide) (by decide)

theorem withRetryGo_ok (op : Nat → Except E A) (maxRetries delay attempt : Nat) (a : A)
    (hle : attempt ≤ maxRetries) (hok : op attempt = .ok a) :
    withRetryGo op maxRetries delay attempt = ⟨.ok a, [], 1⟩ := by
  unfold withRetryGo
  rw [dif_neg (Nat.not_lt.mpr hle)]
  simp [hok]

theorem withRetryGo_last (op : Nat → Except E A) (maxRetries delay : Nat) (e : E)
    (he : op maxRetries = .error e) :
    withRetryGo op maxRetries delay maxRetries = ⟨.error (some e), [], 1⟩ := by
  unfold withRetryGo
  rw [dif_neg (by omega)]
  simp [he]

theorem withRetryGo_step (op : Nat → Except E A) (maxRetries delay attempt : Nat) (e : E)
    (hlt : attempt < maxRetries) (he : op attempt = .error e) :
    withRetryGo op maxRetries delay attempt =
      ⟨(withRetryGo op maxRetries delay (attempt + 1)).result,
       delay * attempt :: (withRetryGo op maxRetries delay (attempt + 1)).waits,
       (withRetryGo op maxRetries delay (attempt + 1)).attempts + 1⟩ := by
  conv_lhs => rw [withRetryGo]
  rw [dif_neg (by omega)]
  simp [he, Nat.ne_of_lt hlt]

theorem withRetryGo_shape (op : Nat → Except E A) (maxRetries delay : Nat) :
    ∀ (d attempt : Nat), maxRetries - attempt < d → 1 ≤ attempt → attempt ≤ maxRetries →
      (1 ≤ (withRetryGo op maxRetries delay attempt).attempts ∧
       (withRetryGo op maxRetries delay attempt).attempts + attempt ≤ maxRetries + 1) ∧
      (withRetryGo op maxRetries delay attempt).waits =
        (List.range' attempt ((withRetryGo op maxRetries delay attempt).attempts - 1)).map
          (fun i => delay * i) := by
  intro d
  induction d with
  | zero => intro attempt hd; omega
  | succ d ih =>
    intro attempt hd h1 hle
    cases hok : op attempt with
    | ok a =>
      rw [withRetryGo_ok op maxRetries delay attempt a hle hok]
      exact ⟨⟨le_rfl, by show 1 + attempt ≤ maxRetries + 1; omega⟩, by simp⟩
    | error e =>
      by_cases heq : attempt = maxRetries
      · have hok' : op maxRetries = .error e := by rw [← heq]; exact hok
        rw [heq, withRetryGo_last op maxRetries delay e hok']
        exact ⟨⟨le_rfl, by show 1 + maxRetries ≤ maxRetries + 1; omega⟩, by simp⟩
      · have hlt : attempt < maxRetries := lt_of_le_of_ne hle heq
        rw [withRetryGo_step op maxRetries delay attempt e hlt hok]
        obtain ⟨⟨ha1, ha2⟩, hw⟩ := ih (attempt + 1) (by omega) (by omega) (by omega)
        dsimp only
        refine ⟨⟨by omega, by omega⟩, ?_⟩
        obtain ⟨k, hk⟩ : ∃ k, (withRetryGo op maxRetries delay (attempt + 1)).attempts = k + 1 :=
          ⟨(withRetryGo op maxRetries delay (attempt + 1)).attempts - 1, by omega⟩
        rw [hk] at hw ⊢
        simp only [Nat.add_sub_cancel, List.range'_succ, List.map_cons]
        rw [hw]
        simp

theorem withRetryGo_first_ok (op : Nat → Except E A) (maxRetries delay : Nat) :
    ∀ (d attempt i : Nat) (a : A), maxRetries - attempt < d →
      attempt ≤ i → i ≤ maxRetries → op i = .ok a →
      (∀ j, attempt ≤ j → j < i → ∃ err, op j = .error err) →
      (withRetryGo op maxRetries delay attempt).result = .ok a ∧
      (withRetryGo op maxRetries delay attempt).attempts + attempt = i + 1 := by
  intro d
  induction d with
  | zero => intro attempt i a hd; omega
  | succ d ih =>
    intro attempt i a hd hai him hok hfail
    by_cases heq : attempt = i
    · have hok' : op attempt = .ok a := by rw [heq]; exact hok
      rw [withRetryGo_ok op maxRetries delay attempt a (by omega) hok']
      exact ⟨rfl, by show 1 + attempt = i + 1; omega⟩
    · have hlt : attempt < i := lt_of_le_of_ne hai heq
      obtain ⟨err, herr⟩ := hfail attempt le_rfl hlt
      have hltmax : attempt < maxRetries := lt_of_lt_of_le hlt him
      rw [withRetryGo_step op maxRetries delay attempt err hltmax herr]
      obtain ⟨hres, hatt⟩ :=
        ih (attempt + 1) i a (by omega) (by omega) him hok
          (fun j hj1 hj2 => hfail j (by omega) hj2)
      exact ⟨hres, by dsimp only; omega⟩

theorem withRetryGo_all_fail (op : Nat → Except E A) (maxRetries delay : Nat) :
    ∀ (d attempt : Nat) (e : E), maxRetries - attempt < d →
      attempt ≤ maxRetries → op maxRetries = .error e →
      (∀ j, attempt ≤ j → j < maxRetries → ∃ err, op j = .error err) →
      (withRetryGo op maxRetries delay attempt).result = .error (some e) ∧
      (withRetryGo op maxRetries delay attempt).attempts + attempt = maxRetries + 1 := by
  intro d
  induction d with
  | zero => intro attempt e hd; omega
  | succ d ih =>
    intro attempt e hd hle hlast hfail
    by_cases heq : attempt = maxRetries
    · rw [heq, withRetryGo_last op maxRetries delay e hlast]
      exact ⟨rfl, by show 1 + maxRetries = maxRetries + 1; omega⟩
    · have hlt : attempt < maxRetries := lt_of_le_of_ne hle heq
      obtain ⟨err, herr⟩ := hfail attempt le_rfl hlt
      rw [withRetryGo_step op maxRetries delay attempt err hlt herr]
      obtain ⟨hres, hatt⟩ :=
        ih (attempt + 1) e (by omega) (by omega) hlast
          (fun j hj1 hj2 => hfail j (by omega) hj2)
      exact ⟨hres, by dsimp only; omega⟩

/-- C6: withRetry performs at most maxRetries attempts; the sleeps between
consecutive attempts are delay times the attempt number (linear backoff:
delay·1, delay·2, ...); the first successful attempt's value is returned
with no further attempts; and when every attempt fails the error of the
last attempt is the propagated rejection. -/
theorem withRetry_spec (op : Nat → Except E A) (maxRetries delay : Nat) :
    ((withRetry op maxRetries delay).attempts ≤ maxRetries ∧
     (withRetry op maxRetries delay).waits =
       (List.range' 1 ((withRetry op maxRetries delay).attempts - 1)).map
         (fun i => delay * i)) ∧
    (∀ (i : Nat) (a : A), 1 ≤ i → i ≤ maxRetries → op i = .ok a →
        (∀ j, 1 ≤ j → j < i → ∃ err, op j = .error err) →
        (withRetry op maxRetries delay).result = .ok a ∧
        (withRetry op maxRetries delay).attempts = i) ∧
    (∀ e : E, 1 ≤ maxRetries → op maxRetries = .error e →
        (∀ j, 1 ≤ j → j < maxRetries → ∃ err, op j = .error err) →
        (withRetry op maxRetries delay).result = .error (some e) ∧
        (withRetry op maxRetries delay).attempts = maxRetries) := by
  unfold withRetry
  by_cases hmax : 1 ≤ maxRetries
  · obtain ⟨⟨hs1, hs2⟩, hw⟩ :=
      withRetryGo_shape op maxRetries delay maxRetries 1 (by omega) le_rfl hmax
    refine ⟨⟨by omega, hw⟩, ?_, ?_⟩
    · intro i a hi1 hi2 hok hfail
      obtain ⟨hres, hatt⟩ :=
        withRetryGo_first_ok op maxRetries delay maxRetries 1 i a (by omega) hi1 hi2 hok
          (fun j hj1 hj2 => hfail j hj1 hj2)
      exact ⟨hres, by omega⟩
    · intro e h1 hlast hfail
      obtain ⟨hres, hatt⟩ :=
        withRetryGo_all_fail op maxRetries delay maxRetries 1 e (by omega) h1 hlast
          (fun j hj1 hj2 => hfail j hj1 hj2)
      exact ⟨hres, by omega⟩
  · have h0 : maxRetries = 0 := by omega
    subst h0
    have hval : withRetryGo op 0 delay 1 = ⟨.error none, [], 0⟩ := by
      unfold withRetryGo
      rw [dif_pos (by omega)]
    rw [hval]
    refine ⟨⟨le_rfl, by simp⟩, ?_, ?_⟩
    · intro i a hi1 hi2
      omega
    · intro e h1
      omega

/-- Witness for the C6 theorem: an operation failing once and succeeding on
its second attempt returns that success after exactly two attempts. -/
theorem withRetry_spec_witness :
    (withRetry (fun i => if i = 2 then Except.ok (42 : Nat) else Except.error "boom")
        3 100).result = .ok 42 ∧
    (withRetry (fun i => if i = 2 then Except.ok (42 : Nat) else Except.error "boom")
        3 100).attempts = 2 :=
  (withRetry_spec (fun i => if i = 2 then Except.ok (42 : Nat) else Except.error "boom")
      3 100).2.1 2 42 (by omega) (by omega) rfl
    (fun j hj1 hj2 => ⟨"boom", by
      have hj : j = 1 := by omega
      subst hj
      rfl⟩)

theorem contains_true_iff_mem [BEq α] [LawfulBEq α] (l : List α) (a : α) :
    l.contains a = true ↔ a ∈ l :=
  List.elem_iff

theorem cleanup_filter_eq (store : CacheStore T)
    (hge : ¬ ((cacheEntriesOf store).length < CACHE_CLEANUP_COUNT)) :
    cleanupCache store = store.filter (fun p => !(evictionVictims store).contains p.1) := by
  simp only [cleanupCache]
  rw [if_neg hge]

/-- C5: whenever the number of cache entries is at least the occupancy
trigger (80% of the 50-entry maximum, i.e. 40), the eviction pass run by
setCachedData removes exactly the lowest-scoring fifth of the cache
entries (score `lastAccessed + accessCount·1000`): the result is a
sub-store, its cache-entry count drops by `n / 5`, and every evicted
entry's score is at most every surviving cache entry's score; below the
trigger the pass removes nothing; and setCachedData runs this pass before
storing. -/
theorem cleanupCache_eviction_spec (store : CacheStore T)
    (hnodup : (store.map (fun p => p.1)).Nodup) :
    ((cacheEntriesOf store).length < CACHE_CLEANUP_COUNT → cleanupCache store = store) ∧
    (CACHE_CLEANUP_COUNT ≤ (cacheEntriesOf store).length →
       (cleanupCache store).Sublist store ∧
       (cacheEntriesOf (cleanupCache store)).length =
         (cacheEntriesOf store).length - (cacheEntriesOf store).length / 5 ∧
       (∀ p ∈ store, p ∉ cleanupCache store →
          ∀ q ∈ cleanupCache store, jsStarts q.1 "cache_" = true →
            entryScore p.2 ≤ entryScore q.2)) ∧
    (∀ (key : String) (data : T) (dataSize now : Nat), key ≠ "" →
       dataSize ≤ 5 * 1024 * 1024 →
       setCachedData store key data dataSize now =
         setStore (cleanupCache store) ("cache_" ++ key)
           ⟨now, data, some dataSize, 0, now⟩) := by
  have hkeysnodup : ((cacheEntriesOf store).map (fun p => p.1)).Nodup :=
    ((List.filter_sublist store).map (fun p => p.1)).nodup hnodup
  refine ⟨?_, ?_, ?_⟩
  · intro h
    simp only [cleanupCache]
    rw [if_pos h]
  · intro h
    have hneg : ¬ ((cacheEntriesOf store).length < CACHE_CLEANUP_COUNT) := Nat.not_lt.mpr h
    have hclean := cleanup_filter_eq store hneg
    have hperm : (evictionSorted store).Perm (cacheEntriesOf store) := by
      unfold evictionSorted
      exact sortByKey_perm (fun p => entryScore p.2) (cacheEntriesOf store)
    have hsortnodup : ((evictionSorted store).map (fun p => p.1)).Nodup :=
      ((hperm.map (fun p => p.1)).symm).nodup hkeysnodup
    have hdrop_novic : ∀ p ∈ (evictionSorted store).drop
        ((cacheEntriesOf store).length / 5), p.1 ∉ evictionVictims store := by
      intro p hp hmem
      rcases List.mem_map.mp hmem with ⟨q, hq, hqe⟩
      have hsplit : (evictionSorted store).map (fun p => p.1) =
          ((evictionSorted store).take ((cacheEntriesOf store).length / 5)).map
            (fun p => p.1) ++
          ((evictionSorted store).drop ((cacheEntriesOf store).length / 5)).map
            (fun p => p.1) := by
        rw [← List.map_append, List.take_append_drop]
      rw [hsplit] at hsortnodup
      rcases List.nodup_append.mp hsortnodup with ⟨_, _, hdisj⟩
      refine hdisj (List.mem_map_of_mem _ hq) ?_
      rw [hqe]
      exact List.mem_map_of_mem _ hp
    refine ⟨by rw [hclean]; exact List.filter_sublist store, ?_, ?_⟩
    · rw [hclean]
      have hcomm : cacheEntriesOf
          (store.filter (fun p => !(evictionVictims store).contains p.1)) =
          (cacheEntriesOf store).filter
            (fun p => !(evictionVictims store).contains p.1) := by
        unfold cacheEntriesOf
        rw [List.filter_filter, List.filter_filter]
        exact List.filter_congr (fun a _ => Bool.and_comm _ _)
      rw [hcomm]
      have hlenperm : ((cacheEntriesOf store).filter
            (fun p => !(evictionVictims store).contains p.1)).length =
          ((evictionSorted store).filter
            (fun p => !(evictionVictims store).contains p.1)).length :=
        ((hperm.filter _).length_eq).symm
      rw [hlenperm]
      conv_lhs => rw [← List.take_append_drop ((cacheEntriesOf store).length / 5)
        (evictionSorted store)]
      rw [List.filter_append]
      have h1 : ((evictionSorted store).take ((cacheEntriesOf store).length / 5)).filter
          (fun p => !(evictionVictims store).contains p.1) = [] := by
        apply List.filter_eq_nil_iff.mpr
        intro p hp
        have hmem : p.1 ∈ evictionVictims store := List.mem_map_of_mem _ hp
        have hc : (evictionVictims store).contains p.1 = true :=
          (contains_true_iff_mem _ _).mpr hmem
        rw [hc]
        decide
      have h2 : ((evictionSorted store).drop ((cacheEntriesOf store).length / 5)).filter
          (fun p => !(evictionVictims store).contains p.1) =
          (evictionSorted store).drop ((cacheEntriesOf store).length / 5) := by
        apply List.filter_eq_self.mpr
        intro p hp
        have hnm := hdrop_novic p hp
        have hc : (evictionVictims store).contains p.1 = false :=
          Bool.eq_false_iff.mpr (fun hx => hnm ((contains_true_iff_mem _ _).mp hx))
        rw [hc]
        rfl
      rw [h1, h2]
      simp [List.length_drop, hperm.length_eq]
    · intro p hp hpnot q hq hqpre
      have hfp : (evictionVictims store).contains p.1 = true := by
        by_contra hfpx
        have hff : (evictionVictims store).contains p.1 = false := by
          cases hb : (evictionVictims store).contains p.1
          · rfl
          · exact absurd hb hfpx
        exact hpnot (by
          rw [hclean]
          exact List.mem_filter.mpr ⟨hp, by rw [hff]; rfl⟩)
      have hpvic : p.1 ∈ evictionVictims store := (contains_true_iff_mem _ _).mp hfp
      rcases List.mem_map.mp hpvic with ⟨pv, hpvtake, hpveq⟩
      have hpvkeys : pv ∈ cacheEntriesOf store :=
        hperm.mem_iff.mp (List.mem_of_mem_take hpvtake)
      have hpvstarts : jsStarts pv.1 "cache_" = true := (List.mem_filter.mp hpvkeys).2
      have hpkeys : p ∈ cacheEntriesOf store :=
        List.mem_filter.mpr ⟨hp, by rw [← hpveq]; exact hpvstarts⟩
      have hpeq : p = pv := List.inj_on_of_nodup_map hkeysnodup hpkeys hpvkeys hpveq.symm
      have hq' : q ∈ store.filter (fun p => !(evictionVictims store).contains p.1) := by
        rw [← hclean]
        exact hq
      have hqstore := (List.mem_filter.mp hq').1
      have hqb := (List.mem_filter.mp hq').2
      have hqnvic : q.1 ∉ evictionVictims store := by
        intro hmem
        have hc := (contains_true_iff_mem (evictionVictims store) q.1).mpr hmem
        rw [hc] at hqb
        exact absurd hqb (by decide)
      have hqkeys : q ∈ cacheEntriesOf store := List.mem_filter.mpr ⟨hqstore, hqpre⟩
      have hqsorted : q ∈ evictionSorted store := hperm.mem_iff.mpr hqkeys
      rw [← List.take_append_drop ((cacheEntriesOf store).length / 5)
        (evictionSorted store)] at hqsorted
      have hqdrop : q ∈ (evictionSorted store).drop
          ((cacheEntriesOf store).length / 5) := by
        rcases List.mem_append.mp hqsorted with htk | hdr
        · exact absurd (List.mem_map_of_mem _ htk) hqnvic
        · exact hdr
      have hsorted := sortByKey_pairwise (fun p => entryScore p.2) (cacheEntriesOf store)
      have hrel := List.Sorted.rel_of_mem_take_of_mem_drop hsorted hpvtake hqdrop
      rw [hpeq]
      exact hrel
  · intro key data dataSize now hkey hsize
    simp only [setCachedData]
    rw [if_neg hkey, if_neg (Nat.not_lt.mpr hsize)]

/-- Witness for the C5 theorem: below the trigger the pass removes
nothing. -/
theorem cleanupCache_eviction_spec_witness :
    cleanupCache [("cache_a", (⟨1, (0 : Nat), none, 0, 1⟩ : CacheEntry Nat))] =
      [("cache_a", ⟨1, 0, none, 0, 1⟩)] :=
  (cleanupCache_eviction_spec
      [("cache_a", (⟨1, (0 : Nat), none, 0, 1⟩ : CacheEntry Nat))] (by decide)).1
    (by decide)

theorem lookup_of_mem_nodup {β : Type} (l : List (String × β)) (x : String) (v : β)
    (hnodup : (l.map (fun p => p.1)).Nodup) (hmem : (x, v) ∈ l) :
    List.lookup x l = some v := by
  induction l with
  | nil => cases hmem
  | cons kv t ih =>
    rcases List.pairwise_cons.mp hnodup with ⟨hhead, htail⟩
    rcases List.mem_cons.mp hmem with heq | hmemt
    · rw [← heq]
      simp [List.lookup]
    · by_cases hx : x = kv.1
      · exfalso
        have : kv.1 ∈ t.map (fun p => p.1) := by
          rw [← hx]
          exact List.mem_map_of_mem _ hmemt
        rcases List.mem_map.mp this with ⟨w, hw, hwe⟩
        exact hhead _ (List.mem_map_of_mem _ hw) hwe.symm
      · have hbeq : (x == kv.1) = false := beq_eq_false_iff_ne.mpr hx
        cases kv with
        | mk k w =>
          simp only [List.lookup, hbeq]
          exact ih htail hmemt

theorem respRecord_eq_reverse (items : List ScoreItem) :
    ∀ acc : ScoresRec,
      items.foldl (fun acc it => (it.id, (⟨it.finalScore, it.betOutcome⟩ :
          PredictionResult)) :: acc) acc =
        (items.map (fun it => (it.id, (⟨it.finalScore, it.betOutcome⟩ :
          PredictionResult)))).reverse ++ acc := by
  induction items with
  | nil => intro acc; simp
  | cons it items ih =>
    intro acc
    rw [List.foldl_cons, ih, List.map_cons, List.reverse_cons, List.append_assoc]
    simp

theorem respRecord_lookup (items : List ScoreItem) (it : ScoreItem)
    (hnodup : (items.map (fun it => it.id)).Nodup) (hmem : it ∈ items) :
    List.lookup it.id (respRecord items) =
      some ⟨it.finalScore, it.betOutcome⟩ := by
  unfold respRecord
  rw [respRecord_eq_reverse items []]
  rw [List.append_nil]
  apply lookup_of_mem_nodup
  · rw [List.map_reverse, List.map_map]
    exact List.nodup_reverse.mpr (by simpa using hnodup)
  · exact List.mem_reverse.mpr (List.mem_map_of_mem _ hmem)

theorem respRecord_lookup_none (items : List ScoreItem) (x : String)
    (hx : ∀ it ∈ items, it.id ≠ x) :
    List.lookup x (respRecord items) = none := by
  unfold respRecord
  rw [respRecord_eq_reverse items [], List.append_nil]
  induction items with
  | nil => rfl
  | cons it items ih =>
    rw [List.map_cons, List.reverse_cons]
    rw [List.lookup_append]
    have h1 := ih (fun w hw => hx w (List.mem_cons_of_mem _ hw))
    rw [h1]
    have hbeq : (x == it.id) = false :=
      beq_eq_false_iff_ne.mpr (fun he => hx it (List.mem_cons_self _ _) he.symm)
    simp [List.lookup, hbeq]

theorem fillMissing_pres (ps : List MatchPrediction) :
    ∀ (acc : ScoresRec) (x : String) (r : PredictionResult),
      List.lookup x acc = some r → List.lookup x (fillMissing ps acc) = some r := by
  induction ps with
  | nil => intro acc x r h; exact h
  | cons p ps ih =>
    intro acc x r h
    unfold fillMissing
    rw [List.foldl_cons]
    show List.lookup x (fillMissing ps _) = some r
    cases hl : List.lookup p.id acc with
    | some w => simpa [hl] using ih acc x r h
    | none =>
      have hx : x ≠ p.id := by
        intro he
        rw [he, hl] at h
        cases h
      have hbeq : (x == p.id) = false := beq_eq_false_iff_ne.mpr hx
      have : List.lookup x ((p.id, (⟨none, none⟩ : PredictionResult)) :: acc) = some r := by
        simp only [List.lookup, hbeq]
        exact h
      simpa [hl] using ih _ x r this

theorem fillMissing_none (ps : List MatchPrediction) :
    ∀ (acc : ScoresRec) (x : String),
      List.lookup x acc = none → (∀ q ∈ ps, q.id ≠ x) →
      List.lookup x (fillMissing ps acc) = none := by
  induction ps with
  | nil => intro acc x h _; exact h
  | cons p ps ih =>
    intro acc x h hq
    unfold fillMissing
    rw [List.foldl_cons]
    show List.lookup x (fillMissing ps _) = none
    cases hl : List.lookup p.id acc with
    | some w =>
      simpa [hl] using ih acc x h (fun q hw => hq q (List.mem_cons_of_mem _ hw))
    | none =>
      have hbeq : (x == p.id) = false :=
        beq_eq_false_iff_ne.mpr (fun he => hq p (List.mem_cons_self _ _) he.symm)
      have hstep : List.lookup x ((p.id, (⟨none, none⟩ : PredictionResult)) :: acc) = none := by
        simp only [List.lookup, hbeq]
        exact h
      simpa [hl] using ih _ x hstep (fun q hw => hq q (List.mem_cons_of_mem _ hw))

theorem fillMissing_fills (ps : List MatchPrediction) :
    ∀ (acc : ScoresRec) (q : MatchPrediction), q ∈ ps →
      List.lookup q.id acc = none →
      List.lookup q.id (fillMissing ps acc) = some ⟨none, none⟩ := by
  induction ps with
  | nil => intro acc q hq; cases hq
  | cons p ps ih =>
    intro acc q hq hnone
    unfold fillMissing
    rw [List.foldl_cons]
    show List.lookup q.id (fillMissing ps _) = some ⟨none, none⟩
    rcases List.mem_cons.mp hq with heq | hmemt
    · subst heq
      rw [hnone]
      apply fillMissing_pres
      simp [List.lookup]
    · cases hl : List.lookup p.id acc with
      | some w => simpa [hl] using ih acc q hmemt hnone
      | none =>
        by_cases hpq : q.id = p.id
        · apply fillMissing_pres
          rw [hpq]
          simp [List.lookup]
        · have hbeq : (q.id == p.id) = false := beq_eq_false_iff_ne.mpr hpq
          have hstep : List.lookup q.id
              ((p.id, (⟨none, none⟩ : PredictionResult)) :: acc) = none := by
            simp only [List.lookup, hbeq]
            exact hnone
          simpa [hl] using ih _ q hmemt hstep

theorem buildRelevant_pres (rec : ScoresRec) (ps : List MatchPrediction) :
    ∀ (acc : ScoresRec) (x : String) (r : PredictionResult),
      List.lookup x acc = some r →
      List.lookup x (ps.foldl (fun acc p =>
        match List.lookup p.id rec with
        | some w => acc ++ [(p.id, w)]
        | none => acc) acc) = some r := by
  induction ps with
  | nil => intro acc x r h; exact h
  | cons p ps ih =>
    intro acc x r h
    rw [List.foldl_cons]
    cases hl : List.lookup p.id rec with
    | none => simpa [hl] using ih acc x r h
    | some w =>
      have hstep : List.lookup x (acc ++ [(p.id, w)]) = some r := by
        rw [List.lookup_append, h]
        rfl
      simpa [hl] using ih _ x r hstep

theorem buildRelevant_found (rec : ScoresRec) (ps : List MatchPrediction) :
    ∀ (acc : ScoresRec) (x : String) (r : PredictionResult) (p : MatchPrediction),
      p ∈ ps → p.id = x → List.lookup x rec = some r →
      (List.lookup x acc = some r ∨ List.lookup x acc = none) →
      List.lookup x (ps.foldl (fun acc p =>
        match List.lookup p.id rec with
        | some w => acc ++ [(p.id, w)]
        | none => acc) acc) = some r := by
  induction ps with
  | nil => intro acc x r p hp; cases hp
  | cons q qs ih =>
    intro acc x r p hp hpx hrec hacc
    rw [List.foldl_cons]
    rcases List.mem_cons.mp hp with heq | hmemt
    · have hq : List.lookup q.id rec = some r := by
        rw [← heq, hpx]
        exact hrec
      rw [hq]
      apply buildRelevant_pres
      rw [List.lookup_append]
      have hqx : q.id = x := by rw [← heq, hpx]
      rcases hacc with h | h
      · rw [h]
        rfl
      · rw [h, hqx]
        simp [List.lookup]
    · cases hl : List.lookup q.id rec with
      | none => simpa [hl] using ih acc x r p hmemt hpx hrec hacc
      | some w =>
        have hacc' : List.lookup x (acc ++ [(q.id, w)]) = some r ∨
            List.lookup x (acc ++ [(q.id, w)]) = none := by
          rw [List.lookup_append]
          rcases hacc with h | h
          · left
            rw [h]
            rfl
          · rw [h]
            by_cases hqx : q.id = x
            · left
              have hwr : w = r := by
                rw [hqx] at hl
                exact Option.some.inj (hl.symm.trans hrec)
              rw [hqx, hwr]
              simp [List.lookup]
            · right
              have hbeq : (x == q.id) = false :=
                beq_eq_false_iff_ne.mpr (fun he => hqx he.symm)
              simp [List.lookup, hbeq]
        simpa [hl] using ih _ x r p hmemt hpx hrec hacc'

theorem buildRelevant_lookup_some (ps : List MatchPrediction) (rec : ScoresRec)
    (p : MatchPrediction) (r : PredictionResult) (hp : p ∈ ps)
    (hrec : List.lookup p.id rec = some r) :
    List.lookup p.id (buildRelevant ps rec) = some r := by
  unfold buildRelevant
  exact buildRelevant_found rec ps [] p.id r p hp rfl hrec (Or.inr rfl)

/-- C10 counterexample: the claim says ids already cached keep their cached
result, but when the model's response contains an entry for an
already-cached id, that entry overrides the cached one in the merge and is
what the function returns for that id. -/
theorem fetchScores_cached_override_counterexample :
    List.lookup "a"
      (fetchScoresForPredictions
        [⟨"a", "TA", "TB", "d1", "Football", "bet", 1⟩,
         ⟨"b", "TC", "TD", "d2", "Football", "bet", 1⟩]
        [("a", ⟨some "1 - 0", some "Won"⟩)]
        (some [⟨"a", some "9 - 9", some "Lost"⟩])).1 =
      some ⟨some "9 - 9", some "Lost"⟩ ∧
    (⟨some "9 - 9", some "Lost"⟩ : PredictionResult) ≠ ⟨some "1 - 0", some "Won"⟩ :=
  ⟨rfl, by decide⟩

/-- C10 (amended): provided the model's response names no already-cached
id, fetchScoresForPredictions returns a record with an entry for every
requested prediction id; already-cached ids keep their cached result; a
queried id the response did not cover is filled with null score and null
outcome; and (when a fetch actually happened and the response ids are
distinct) every response result is readable from the updated scores
cache. -/
theorem fetchScores_spec (predictions : List MatchPrediction)
    (cachedScores : ScoresRec) (parsedData : Option (List ScoreItem))
    (hresp : ∀ it ∈ parsedData.getD [], List.lookup it.id cachedScores = none) :
    (∀ p ∈ predictions, ∃ r, List.lookup p.id
        (fetchScoresForPredictions predictions cachedScores parsedData).1 = some r) ∧
    (∀ p ∈ predictions, ∀ r, List.lookup p.id cachedScores = some r →
        List.lookup p.id
          (fetchScoresForPredictions predictions cachedScores parsedData).1 = some r) ∧
    (∀ p ∈ predictions, List.lookup p.id cachedScores = none →
        (∀ it ∈ parsedData.getD [], it.id ≠ p.id) →
        List.lookup p.id
          (fetchScoresForPredictions predictions cachedScores parsedData).1 =
          some ⟨none, none⟩) ∧
    ((predictions.filter (fun p => (List.lookup p.id cachedScores).isNone)) ≠ [] →
        ((parsedData.getD []).map (fun it => it.id)).Nodup →
        ∀ it ∈ parsedData.getD [],
          List.lookup it.id
            (fetchScoresForPredictions predictions cachedScores parsedData).2 =
            some ⟨it.finalScore, it.betOutcome⟩) := by
  by_cases hempty : (predictions.filter
      (fun p => (List.lookup p.id cachedScores).isNone)).isEmpty = true
  · have heq : fetchScoresForPredictions predictions cachedScores parsedData =
        (buildRelevant predictions cachedScores, cachedScores) := by
      simp only [fetchScoresForPredictions]
      rw [if_pos hempty]
    have hallcached : ∀ p ∈ predictions,
        ¬ ((List.lookup p.id cachedScores).isNone = true) := by
      intro p hp
      exact List.filter_eq_nil_iff.mp (List.isEmpty_iff.mp hempty) p hp
    refine ⟨?_, ?_, ?_, ?_⟩
    · intro p hp
      have hsome : ∃ r, List.lookup p.id cachedScores = some r := by
        cases hx : List.lookup p.id cachedScores with
        | none => exact absurd (by rw [hx]; rfl) (hallcached p hp)
        | some r => exact ⟨r, rfl⟩
      rcases hsome with ⟨r, hr⟩
      rw [heq]
      exact ⟨r, buildRelevant_lookup_some predictions cachedScores p r hp hr⟩
    · intro p hp r hr
      rw [heq]
      exact buildRelevant_lookup_some predictions cachedScores p r hp hr
    · intro p hp hnone _
      exact absurd (by rw [hnone]; rfl) (hallcached p hp)
    · intro hne _
      exact absurd (List.isEmpty_iff.mp hempty) hne
  · have heq : fetchScoresForPredictions predictions cachedScores parsedData =
        (buildRelevant predictions
           (fillMissing
              (predictions.filter (fun p => (List.lookup p.id cachedScores).isNone))
              (respRecord (parsedData.getD [])) ++ cachedScores),
         fillMissing
            (predictions.filter (fun p => (List.lookup p.id cachedScores).isNone))
            (respRecord (parsedData.getD [])) ++ cachedScores) := by
      simp only [fetchScoresForPredictions]
      rw [if_neg hempty]
      cases parsedData <;> rfl
    have hnew_none : ∀ (x : String) (r : PredictionResult),
        List.lookup x cachedScores = some r →
        List.lookup x
          (fillMissing
            (predictions.filter (fun p => (List.lookup p.id cachedScores).isNone))
            (respRecord (parsedData.getD []))) = none := by
      intro x r hr
      apply fillMissing_none
      · apply respRecord_lookup_none
        intro it hit he
        have hcontra := hresp it hit
        rw [he, hr] at hcontra
        cases hcontra
      · intro q hq he
        have hqf := (List.mem_filter.mp hq).2
        rw [he, hr] at hqf
        cases hqf
    refine ⟨?_, ?_, ?_, ?_⟩
    · intro p hp
      rw [heq]
      by_cases hc : ∃ r, List.lookup p.id cachedScores = some r
      · rcases hc with ⟨r, hr⟩
        refine ⟨r, buildRelevant_lookup_some _ _ p r hp ?_⟩
        rw [List.lookup_append, hnew_none p.id r hr, hr]
        rfl
      · have hnone : List.lookup p.id cachedScores = none := by
          cases hx : List.lookup p.id cachedScores with
          | none => rfl
          | some w => exact absurd ⟨w, hx⟩ hc
        have hpf : p ∈ predictions.filter
            (fun p => (List.lookup p.id cachedScores).isNone) :=
          List.mem_filter.mpr ⟨hp, by rw [hnone]; rfl⟩
        cases hfr2 : List.lookup p.id (respRecord (parsedData.getD [])) with
        | some w =>
          have hnw := fillMissing_pres
            (predictions.filter (fun p => (List.lookup p.id cachedScores).isNone))
            (respRecord (parsedData.getD [])) p.id w hfr2
          refine ⟨w, buildRelevant_lookup_some _ _ p w hp ?_⟩
          rw [List.lookup_append, hnw]
          rfl
        | none =>
          have hnw := fillMissing_fills
            (predictions.filter (fun p => (List.lookup p.id cachedScores).isNone))
            (respRecord (parsedData.getD [])) p hpf hfr2
          refine ⟨⟨none, none⟩, buildRelevant_lookup_some _ _ p _ hp ?_⟩
          rw [List.lookup_append, hnw]
          rfl
    · intro p hp r hr
      rw [heq]
      apply buildRelevant_lookup_some _ _ p r hp
      rw [List.lookup_append, hnew_none p.id r hr, hr]
      rfl
    · intro p hp hnone hnoresp
      rw [heq]
      have hpf : p ∈ predictions.filter
          (fun p => (List.lookup p.id cachedScores).isNone) :=
        List.mem_filter.mpr ⟨hp, by rw [hnone]; rfl⟩
      have hfr2 : List.lookup p.id (respRecord (parsedData.getD [])) = none :=
        respRecord_lookup_none _ _ (fun it hit => hnoresp it hit)
      have hnw := fillMissing_fills
        (predictions.filter (fun p => (List.lookup p.id cachedScores).isNone))
        (respRecord (parsedData.getD [])) p hpf hfr2
      apply buildRelevant_lookup_some _ _ p _ hp
      rw [List.lookup_append, hnw]
      rfl
    · intro _ hnodup it hit
      rw [heq]
      have hfr2 := respRecord_lookup (parsedData.getD []) it hnodup hit
      have hnw := fillMissing_pres
        (predictions.filter (fun p => (List.lookup p.id cachedScores).isNone))
        (respRecord (parsedData.getD [])) it.id _ hfr2
      rw [List.lookup_append, hnw]
      rfl

/-- Witness for the amended C10 theorem: a single uncached prediction with
an empty model response comes back filled with null score and outcome. -/
theorem fetchScores_spec_witness :
    List.lookup "p1"
      (fetchScoresForPredictions [⟨"p1", "TA", "TB", "d", "Football", "bet", 2⟩]
        [] (some [])).1 = some ⟨none, none⟩ :=
  (fetchScores_spec [⟨"p1", "TA", "TB", "d", "Football", "bet", 2⟩] [] (some [])
      (fun it hit => absurd hit (List.not_mem_nil it))).2.2.1
    ⟨"p1", "TA", "TB", "d", "Football", "bet", 2⟩ (List.mem_singleton.mpr rfl)
    rfl (fun it hit => absurd hit (List.not_mem_nil it))
